import Mathlib

/-!
Verification development for the shift-scheduling core engine
(`core_engine.py`).  The Python model-construction pipeline is embedded
shallowly: the constraint families posted by `_add_hard_constraints` (and the
hard part of `_add_fairness_objective`) become executable Boolean
satisfaction checkers over an assignment grid, the recurring-rule expansion
(`_generate_vacations_from_rules` / `_generate_fixed_shifts_from_rules`)
becomes a pure Lean function, and the enumeration loop of
`ShiftScheduler.solve` becomes a fuel-indexed recursion over an abstract
solver oracle.  CP-SAT itself is opaque: a solver outcome is modelled as a
status carrying an assignment grid, with the guarantee (used as an explicit
hypothesis where needed) that a returned grid satisfies the constraints that
were posted, in particular the no-good cuts of
`_add_solution_prohibition_constraint`.
-/

namespace ShiftApp

/-- A staff member: mirrors class `Staff` (name, static weekday
unavailability as weekday indices 0..6 standing for the Japanese weekday
labels, active flag).  The colour code is irrelevant to scheduling and is
omitted. -/
structure Staff where
  name : String
  impossibleWeekdays : List Nat
  isActive : Bool
deriving DecidableEq

/-- One entry of the calendar produced by `generate_calendar_with_holidays`:
day-of-month number (1-based), weekday index (0 = Monday .. 6 = Sunday, the
value of Python `date.weekday()`), and whether the date is a national
holiday (membership in the `holidays.JP` table). -/
structure Day where
  dayNum : Nat
  weekday : Nat
  natHoliday : Bool
deriving DecidableEq

/-- The target month: number of days, weekday index of day 1, and the set of
national-holiday day numbers.  Within one month consecutive dates advance the
weekday cyclically, so the weekday of every day is determined by
`firstWeekday`; this is exactly what Python `datetime.date.weekday` yields
for the days of one month. -/
structure Month where
  numDays : Nat
  firstWeekday : Nat
  natHolidays : List Nat
deriving DecidableEq

/-- Weekday index of a given day number, from raw data (`w0` = weekday of
day 1). -/
def wdOfD (w0 dayNum : Nat) : Nat := (w0 + (dayNum - 1)) % 7

/-- Weekday index of day number `dayNum` of month `m`. -/
def weekdayOf (m : Month) (dayNum : Nat) : Nat := wdOfD m.firstWeekday dayNum

/-- Membership of a day number in the national-holiday table
(`current_date in self.jp_holidays`). -/
def natHolidayOn (m : Month) (dayNum : Nat) : Bool := m.natHolidays.contains dayNum

/-- The calendar record of day number `dayNum`. -/
def dayAtNum (m : Month) (dayNum : Nat) : Day :=
  ⟨dayNum, weekdayOf m dayNum, natHolidayOn m dayNum⟩

/-- The ordered day sequence for the month: mirrors
`generate_calendar_with_holidays` (restricted to the fields the solver
reads). -/
def calendarData (m : Month) : List Day :=
  (List.range' 1 m.numDays).map (dayAtNum m)

/-- A key of the per-day staffing-requirement map: a weekday label or the
holiday marker (the Japanese string keys of the Python dict). -/
inductive DayKey where
  | wd (index : Nat)
  | holiday
deriving DecidableEq

/-- A well-shaped `shifts_per_day` configuration: a single int, a global
record with integer `min`/`max`, or a per-weekday/holiday map of ranges. -/
inductive SPDConfig where
  | uniform (n : Nat)
  | globalRange (mn mx : Nat)
  | perKey (entries : List (DayKey × Nat × Nat))
deriving DecidableEq

/-- Range lookup of `_get_shift_range_for_day` in the per-key case: the
first matching entry, defaulting to `(1, 1)` when the key is absent
(`config.get(key, dict-with-min-1-max-1)` with per-field defaults of 1). -/
def lookupSPDKey (entries : List (DayKey × Nat × Nat)) (k : DayKey) : Nat × Nat :=
  match entries.find? (fun e => decide (e.1 = k)) with
  | some e => e.2
  | none => (1, 1)

/-- Mirrors `_get_shift_range_for_day`: an int config gives the exact count,
a global min/max record gives that range, otherwise the map is keyed by the
holiday marker (when the day is a national holiday and the marker is a key
of the map) or by the day's weekday. -/
def getShiftRangeForDay (day : Day) (config : SPDConfig) : Nat × Nat :=
  match config with
  | .uniform n => (n, n)
  | .globalRange mn mx => (mn, mx)
  | .perKey entries =>
      let hasHolidayKey := entries.any (fun e => decide (e.1 = DayKey.holiday))
      let key := if day.natHoliday && hasHolidayKey then DayKey.holiday else DayKey.wd day.weekday
      lookupSPDKey entries key

/-- A raw `shifts_per_day` argument as Python receives it: either one of the
recognized shapes, or a stray non-dict, non-int value (modelled by the
string case, e.g. a `str`). -/
inductive RawSPD where
  | good (config : SPDConfig)
  | pyStr (s : String)
deriving DecidableEq

/-- Mirrors `_get_shift_range_for_day` on a raw argument.  On a `str`
config the guard `'min' in config and 'max' in config and
isinstance(config.get('min'), int)` either short-circuits to `False` or
itself reaches `config.get`; in both paths `config.get` is evaluated on an
object without a `get` attribute and an `AttributeError` escapes.  The
function is not wrapped in any `try` in `solve`'s first attempt. -/
def getShiftRangeForDayRaw (day : Day) : RawSPD → Except String (Nat × Nat)
  | .good config => .ok (getShiftRangeForDay day config)
  | .pyStr _ => .error "AttributeError: object has no attribute get"

/-- A recurring fixed-shift rule (`RuleBasedFixedShift`): the Nth
(`weekNumber` 1..5, 5 = last) occurrence of weekday `weekdayIndex` is a
fixed duty for the named staff.  The Python record holds the `Staff` object
of the registry; its identity is its name. -/
structure RuleBasedFixedShift where
  weekNumber : Nat
  weekdayIndex : Nat
  staffName : String
deriving DecidableEq

/-- A recurring vacation rule (`RuleBasedVacation`). -/
structure RuleBasedVacation where
  weekNumber : Nat
  weekdayIndex : Nat
  staffName : String
deriving DecidableEq

/-- Backward scan of `_generate_vacations_from_rules` /
`_generate_fixed_shifts_from_rules` building `last_week_dates`: for
`i = 0..6`, day `last_day - i` is recorded for its weekday unless that
weekday was already seen.  Raw-data version (`D` days, first weekday
`w0`). -/
def lastWeekScan (D w0 : Nat) : List Nat → List (Nat × Nat) → List (Nat × Nat)
  | [], acc => acc
  | i :: rest, acc =>
      let d := D - i
      if 0 < d then
        let wd := wdOfD w0 d
        if (acc.find? (fun e => e.1 == wd)).isSome then lastWeekScan D w0 rest acc
        else lastWeekScan D w0 rest (acc ++ [(wd, d)])
      else lastWeekScan D w0 rest acc

/-- The finished `last_week_dates` association (weekday index to date). -/
def lastWeekDates (D w0 : Nat) : List (Nat × Nat) :=
  lastWeekScan D w0 (List.range 7) []

/-- Lookup `last_week_dates.get(wd)`. -/
def lastWeekDateForD (D w0 wd : Nat) : Option Nat :=
  ((lastWeekDates D w0).find? (fun e => e.1 == wd)).map (·.2)

/-- Lookup `last_week_dates.get(wd)` for a month. -/
def lastWeekDateFor (m : Month) (wd : Nat) : Option Nat :=
  lastWeekDateForD m.numDays m.firstWeekday wd

/-- A day is skipped by the rule-expansion walk when the holiday exemption
is enabled and the date is a national holiday
(`ignore_rules_on_holidays and current_date in self.jp_holidays`). -/
def skippedDay (m : Month) (ignoreHol : Bool) (dayNum : Nat) : Bool :=
  ignoreHol && natHolidayOn m dayNum

/-- Increment of the per-weekday counter list (`counters[wd] += 1`). -/
def counterBump (counters : List Nat) (wd : Nat) : List Nat :=
  counters.set wd (counters.getD wd 0 + 1)

/-- The shared walk of `_generate_vacations_from_rules` and
`_generate_fixed_shifts_from_rules` (their bodies are identical up to the
shape of the output map): scan the calendar in order, skip exempted holiday
days, bump the day's weekday counter, and emit `(date, staffName)` for every
rule whose `weekNumber` equals the bumped counter (with matching weekday) or
which asks for the last occurrence (`weekNumber = 5`) and the date is the
recorded last occurrence of that weekday.  Rules are triples
`(weekNumber, weekdayIndex, staffName)`. -/
def genMarksAux (m : Month) (ignoreHol : Bool) (rules : List (Nat × Nat × String)) :
    List Day → List Nat → List (Nat × String)
  | [], _ => []
  | day :: rest, counters =>
      if skippedDay m ignoreHol day.dayNum then
        genMarksAux m ignoreHol rules rest counters
      else
        let wd := day.weekday
        let counters' := counterBump counters wd
        let cw := counters'.getD wd 0
        let here := rules.filterMap (fun r =>
          if (r.1 = cw ∧ r.2.1 = wd) ∨
             (r.1 = 5 ∧ r.2.1 = wd ∧ lastWeekDateFor m wd = some day.dayNum) then
            some (day.dayNum, r.2.2)
          else none)
        here ++ genMarksAux m ignoreHol rules rest counters'

/-- Mirrors `_generate_vacations_from_rules`: `(date, staffName)` marks, in
calendar order (the Python function stores them as a name-keyed map of date
sets; the pair list carries the same membership information). -/
def generateVacationsFromRules (m : Month) (ignoreHol : Bool)
    (rules : List RuleBasedVacation) : List (Nat × String) :=
  genMarksAux m ignoreHol (rules.map (fun r => (r.weekNumber, r.weekdayIndex, r.staffName)))
    (calendarData m) (List.replicate 7 0)

/-- Mirrors `_generate_fixed_shifts_from_rules` (same walk, fixed-shift
rules). -/
def generateFixedShiftsFromRules (m : Month) (ignoreHol : Bool)
    (rules : List RuleBasedFixedShift) : List (Nat × String) :=
  genMarksAux m ignoreHol (rules.map (fun r => (r.weekNumber, r.weekdayIndex, r.staffName)))
    (calendarData m) (List.replicate 7 0)

/-- The keyword arguments of `ShiftScheduler.solve` that shape the hard
constraint set of one attempt.  Dates are day numbers of the target month;
string-keyed Python dicts become association lists (keys unique in any value
a caller can build from dicts). -/
structure SolveParams where
  noShiftDates : List Nat
  shiftsPerDay : SPDConfig
  minInterval : Nat
  maxConsecutiveDays : Nat
  lastMonthDaysSince : List (String × Nat)
  prevMonthConsecutiveDays : List (String × Nat)
  manualFixedShifts : List (Nat × List String)
  ruleBasedFixedShifts : List RuleBasedFixedShift
  vacations : List (String × List Nat)
  ruleBasedVacations : List RuleBasedVacation
  fairnessGroup : List DayKey
  totalAdjustments : List (String × Int)
  fairnessAdjustments : List (String × Int)
  fairnessTolerance : Int
  fairnessAsHard : Bool
deriving DecidableEq

/-- Association-list lookup for a string-keyed Nat map. -/
def lookupNat (l : List (String × Nat)) (k : String) : Option Nat :=
  (l.find? (fun e => e.1 == k)).map (·.2)

/-- Association-list lookup for a string-keyed Int map, defaulting to 0
(`dict.get(name, 0)`). -/
def lookupInt0 (l : List (String × Int)) (k : String) : Int :=
  ((l.find? (fun e => e.1 == k)).map (·.2)).getD 0

/-- Membership `date_obj in vacations.get(staff.name, set())` for the manual
(month-limited) vacation map. -/
def manualVacationOn (p : SolveParams) (name : String) (dayNum : Nat) : Bool :=
  match p.vacations.find? (fun e => e.1 == name) with
  | some e => e.2.contains dayNum
  | none => false

/-- Membership `(staff.name, date) in manual_fixed_lookup` for the manual
(month-limited) fixed-shift map (`date -> list of staff`). -/
def manualFixedOn (p : SolveParams) (name : String) (dayNum : Nat) : Bool :=
  match p.manualFixedShifts.find? (fun e => e.1 == dayNum) with
  | some e => e.2.contains name
  | none => false

/-- Membership in the rule-expanded vacation map. -/
def ruleVacationOn (m : Month) (ignoreHol : Bool) (rules : List RuleBasedVacation)
    (name : String) (dayNum : Nat) : Bool :=
  (generateVacationsFromRules m ignoreHol rules).contains (dayNum, name)

/-- Membership in the rule-expanded fixed-shift map. -/
def ruleFixedOn (m : Month) (ignoreHol : Bool) (rules : List RuleBasedFixedShift)
    (name : String) (dayNum : Nat) : Bool :=
  (generateFixedShiftsFromRules m ignoreHol rules).contains (dayNum, name)

/-- Membership in `planned_fixed_lookup = manual_fixed_lookup ∪
rule_fixed_lookup`. -/
def plannedFixedOn (m : Month) (ignoreHol : Bool) (p : SolveParams)
    (name : String) (dayNum : Nat) : Bool :=
  manualFixedOn p name dayNum || ruleFixedOn m ignoreHol p.ruleBasedFixedShifts name dayNum

/-- An assignment grid: row `s` is staff index `s`, entry `d` is the value
of `X[s, d]`.  Out-of-range cells read as off. -/
abbrev Grid := List (List Bool)

/-- Value of cell `(s, d)` of a grid. -/
def gridGet (g : Grid) (s d : Nat) : Bool := (g.getD s []).getD d false

/-- The default staff record used only to give list indexing a total
type; every index the checkers touch is in range. -/
def dummyStaff : Staff := ⟨"", [], true⟩

/-- Number of staff assigned on day index `d` (`sum over s of X[s, d]`). -/
def dayAssignedCount (g : Grid) (numStaff d : Nat) : Nat :=
  (List.range numStaff).countP (fun s => gridGet g s d)

/-- Per-day coverage constraints of `_add_hard_constraints`: a no-shift date
pins the day total to 0, any other day's total must lie in the range of
`_get_shift_range_for_day`. -/
def coverageSat (m : Month) (staffCount : Nat) (p : SolveParams) (g : Grid) : Bool :=
  (calendarData m).all (fun day =>
    let d := day.dayNum - 1
    if p.noShiftDates.contains day.dayNum then
      dayAssignedCount g staffCount d == 0
    else
      let r := getShiftRangeForDay day p.shiftsPerDay
      decide (r.1 ≤ dayAssignedCount g staffCount d) &&
        decide (dayAssignedCount g staffCount d ≤ r.2))

/-- The per-slot precedence chain of `_add_hard_constraints`: manual
vacation pins 0, else manual fixed pins 1, else rule vacation pins 0, else a
statically impossible weekday pins 0 unless exempted on a national holiday;
otherwise the variable is left free. -/
def slotForced (m : Month) (ignoreHol : Bool) (p : SolveParams) (st : Staff) (d : Nat) :
    Option Bool :=
  if manualVacationOn p st.name (d + 1) then some false
  else if manualFixedOn p st.name (d + 1) then some true
  else if ruleVacationOn m ignoreHol p.ruleBasedVacations st.name (d + 1) then some false
  else if st.impossibleWeekdays.contains (weekdayOf m (d + 1)) &&
          !(ignoreHol && natHolidayOn m (d + 1)) then some false
  else none

/-- Satisfaction of every pinned slot. -/
def slotsSat (m : Month) (ignoreHol : Bool) (staffList : List Staff) (p : SolveParams)
    (g : Grid) : Bool :=
  (List.range staffList.length).all (fun s =>
    (List.range m.numDays).all (fun d =>
      match slotForced m ignoreHol p (staffList.getD s dummyStaff) d with
      | some b => gridGet g s d == b
      | none => true))

/-- Carry-over rest constraint from the prior month: with
`days_since_last = (first day) - (last worked date)`, the first
`min_interval - days_since_last + 1` days are pinned off, skipping
planned-fixed days (and the range is empty when the expression is not
positive, as Python `range` of a non-positive bound is). -/
def carryOverSat (m : Month) (ignoreHol : Bool) (staffList : List Staff) (p : SolveParams)
    (g : Grid) : Bool :=
  (List.range staffList.length).all (fun s =>
    let st := staffList.getD s dummyStaff
    match lookupNat p.lastMonthDaysSince st.name with
    | none => true
    | some daysSince =>
        let daysToForbid : Int := (p.minInterval : Int) - (daysSince : Int) + 1
        (List.range daysToForbid.toNat).all (fun d =>
          if d < m.numDays then
            if plannedFixedOn m ignoreHol p st.name (d + 1) then true
            else gridGet g s d == false
          else true))

/-- The minimum-rest-interval implications of `_add_hard_constraints`: for
`d` ranging over `range(num_days - min_interval - 1)` and
`i = 1 .. min_interval - 1` with `k = d + 1 + i < num_days`, unless both
endpoint dates are planned fixed, post that working `d` with day `d+1` off
forbids working day `k`. -/
def minIntervalSat (m : Month) (ignoreHol : Bool) (staffList : List Staff) (p : SolveParams)
    (g : Grid) : Bool :=
  (List.range staffList.length).all (fun s =>
    let st := staffList.getD s dummyStaff
    (List.range (m.numDays - p.minInterval - 1)).all (fun d =>
      (List.range' 1 (p.minInterval - 1)).all (fun i =>
        let k := d + 1 + i
        if m.numDays ≤ k then true
        else if plannedFixedOn m ignoreHol p st.name (d + 1) &&
                plannedFixedOn m ignoreHol p st.name (k + 1) then true
        else !(gridGet g s d && !gridGet g s (d + 1) && gridGet g s k))))

/-- Whether the `windowSizeMinusOne + 1`-day window starting at day index
`d` contains an adjacent pair of dates both planned fixed for the staff. -/
def hasPinnedAdjPair (m : Month) (ignoreHol : Bool) (p : SolveParams) (name : String)
    (d pairs : Nat) : Bool :=
  (List.range pairs).any (fun j =>
    plannedFixedOn m ignoreHol p name (d + j + 1) && plannedFixedOn m ignoreHol p name (d + j + 2))

/-- Number of worked days among day indices `d .. d + len - 1`. -/
def windowSum (g : Grid) (s d len : Nat) : Nat :=
  (List.range len).countP (fun j => gridGet g s (d + j))

/-- The maximum-consecutive-days windows of `_add_hard_constraints`: every
window of `K + 1` days fitting in the month sums to at most `K`, except
windows containing an adjacent planned-fixed pair. -/
def maxConsecSat (m : Month) (ignoreHol : Bool) (staffList : List Staff) (p : SolveParams)
    (g : Grid) : Bool :=
  (List.range staffList.length).all (fun s =>
    let st := staffList.getD s dummyStaff
    (List.range (m.numDays - p.maxConsecutiveDays)).all (fun d =>
      if hasPinnedAdjPair m ignoreHol p st.name d p.maxConsecutiveDays then true
      else decide (windowSum g s d (p.maxConsecutiveDays + 1) ≤ p.maxConsecutiveDays)))

/-- The month-start consecutive-day cap carried over from the prior month:
with a positive trailing count `c` and `remaining = K - c < K`, the first
`remaining + 1` day indices sum to at most `remaining`, unless they contain
an adjacent planned-fixed pair.  Bounds are integers, as in Python, so a
trailing count above `K` makes the window empty and the cap negative. -/
def monthStartSat (m : Month) (ignoreHol : Bool) (staffList : List Staff) (p : SolveParams)
    (g : Grid) : Bool :=
  (List.range staffList.length).all (fun s =>
    let st := staffList.getD s dummyStaff
    match lookupNat p.prevMonthConsecutiveDays st.name with
    | none => true
    | some c =>
        if 0 < c then
          let remaining : Int := (p.maxConsecutiveDays : Int) - (c : Int)
          if remaining < (p.maxConsecutiveDays : Int) then
            let idxCount := (remaining + 1).toNat
            if hasPinnedAdjPair m ignoreHol p st.name 0 (idxCount - 1) then true
            else decide ((windowSum g s 0 idxCount : Int) ≤ remaining)
          else true
        else true)

/-- Day indices matched by the fairness group: a national holiday when the
holiday marker is selected, or a day whose weekday is selected. -/
def specialDayIndices (m : Month) (group : List DayKey) : List Nat :=
  (List.range m.numDays).filter (fun d =>
    (group.contains DayKey.holiday && natHolidayOn m (d + 1)) ||
      group.contains (DayKey.wd (weekdayOf m (d + 1))))

/-- Total worked days of staff index `s` over the month. -/
def totalCount (g : Grid) (m : Month) (s : Nat) : Nat :=
  (List.range m.numDays).countP (fun d => gridGet g s d)

/-- Largest element of an Int list (0 for the empty list, which the model
never builds). -/
def listMaxI : List Int → Int
  | [] => 0
  | x :: xs => xs.foldl max x

/-- Smallest element of an Int list. -/
def listMinI : List Int → Int
  | [] => 0
  | x :: xs => xs.foldl min x

/-- Spread `max - min` of a list of adjusted counts. -/
def spreadI (l : List Int) : Int := listMaxI l - listMinI l

/-- Per-staff adjusted totals `total_shifts[s] - total_adjustments[name]`
built by `_add_fairness_objective`. -/
def adjTotalsList (g : Grid) (m : Month) (staffList : List Staff) (p : SolveParams) :
    List Int :=
  (List.range staffList.length).map (fun s =>
    (totalCount g m s : Int) - lookupInt0 p.totalAdjustments (staffList.getD s dummyStaff).name)

/-- Per-staff adjusted special-day counts
`fair_shifts[s] - fairness_adjustments[name]`. -/
def adjFairList (g : Grid) (m : Month) (staffList : List Staff) (p : SolveParams) :
    List Int :=
  (List.range staffList.length).map (fun s =>
    (((specialDayIndices m p.fairnessGroup).countP (fun d => gridGet g s d)) : Int) -
      lookupInt0 p.fairnessAdjustments (staffList.getD s dummyStaff).name)

/-- The only hard constraint `_add_fairness_objective` posts on a first
attempt (both staff-subset arguments are `None` there): when more than one
staff is active, the fairness group is nonempty, it matches at least one
day, and fairness is configured hard, the spread of adjusted special-day
counts is at most the tolerance.  The spread of adjusted totals is only
minimized in the objective and is never constrained. -/
def fairnessHardSat (m : Month) (staffList : List Staff) (p : SolveParams) (g : Grid) : Bool :=
  if 1 < staffList.length then
    if !p.fairnessGroup.isEmpty then
      if !(specialDayIndices m p.fairnessGroup).isEmpty then
        if p.fairnessAsHard then
          decide (spreadI (adjFairList g m staffList p) ≤ p.fairnessTolerance)
        else true
      else true
    else true
  else true

/-- The global total-spread cap `_add_global_total_diff_leq1` that `solve`
posts on a first attempt when any manual fixed shifts exist. -/
def globalTotalDiffLe1 (g : Grid) (m : Month) (staffList : List Staff) : Bool :=
  decide (spreadI ((List.range staffList.length).map (fun s => (totalCount g m s : Int))) ≤ 1)

/-- Satisfaction of the full hard-constraint set a first solve attempt of
`ShiftScheduler.solve` posts: every family of `_add_hard_constraints`, the
conditional global total-spread cap, and the hard fairness constraint.  A
grid the backend can return for the attempt satisfies exactly this. -/
def firstAttemptFeasible (m : Month) (ignoreHol : Bool) (staffList : List Staff)
    (p : SolveParams) (g : Grid) : Bool :=
  coverageSat m staffList.length p g &&
    slotsSat m ignoreHol staffList p g &&
    carryOverSat m ignoreHol staffList p g &&
    minIntervalSat m ignoreHol staffList p g &&
    maxConsecSat m ignoreHol staffList p g &&
    monthStartSat m ignoreHol staffList p g &&
    (p.manualFixedShifts.isEmpty || globalTotalDiffLe1 g m staffList) &&
    fairnessHardSat m staffList p g

/-- Outcome of one backend solve call (`cp_model.CpSolver().Solve`):
`OPTIMAL` / `FEASIBLE` carry the assignment extracted by
`_create_solution_from_solver`, and any other status carries no grid
(`INFEASIBLE`, or the remaining statuses such as `UNKNOWN`). -/
inductive SolveStatus where
  | optimal (g : Grid)
  | feasible (g : Grid)
  | infeasible
  | unknown
deriving DecidableEq

/-- Satisfaction of the no-good cut `_add_solution_prohibition_constraint`
posts for one previously accepted solution: the disjunction of the negated
literal for every cell at 1 and the plain literal for every cell at 0, true
exactly when some cell of the `staffCount × numDays` grid differs. -/
def nogoodDiffers (staffCount numDays : Nat) (prev g : Grid) : Bool :=
  (List.range staffCount).any (fun s =>
    (List.range numDays).any (fun d => gridGet g s d != gridGet prev s d))

/-- What the `INFEASIBLE` branch of `solve` returns: the outcome of
`_progressive_relaxation` when it does not raise (`solve` returns `alt2`
whether it is a list or a string), otherwise the report of
`_analyze_infeasibility`, otherwise — when that too raises — the generic
conflict string. -/
def relaxReturn (relaxOut : Except String (List Grid ⊕ String))
    (analyzeOut : Except String String) : List Grid ⊕ String :=
  match relaxOut with
  | .ok r => r
  | .error _ =>
      match analyzeOut with
      | .ok s => Sum.inr s
      | .error _ => Sum.inr "シフトが見つかりませんでした（制約の衝突）"

/-- The enumeration loop of `ShiftScheduler.solve`, fuel-indexed by the
remaining iterations of `for _ in range(max_solutions)` and carrying the
`found_solutions` accumulator.  Each iteration first builds a fresh model
(`construct`, an `Except` because Python exceptions raised there are not
caught and propagate), posts one no-good cut per found solution, and calls
the backend (`oracle`, a function of the found solutions because they are
exactly what distinguishes the models of the attempts): a feasible or
optimal status appends the extracted solution, `INFEASIBLE` returns the
relaxation outcome, and any other status breaks out of the loop, returning
the solutions found so far. -/
def solveLoop (construct : List Grid → Except String Unit)
    (oracle : List Grid → SolveStatus)
    (relaxOut : Except String (List Grid ⊕ String)) (analyzeOut : Except String String) :
    Nat → List Grid → Except String (List Grid ⊕ String)
  | 0, found => .ok (.inl found)
  | Nat.succ n, found =>
      match construct found with
      | .error e => .error e
      | .ok _ =>
          match oracle found with
          | .optimal g => solveLoop construct oracle relaxOut analyzeOut n (found ++ [g])
          | .feasible g => solveLoop construct oracle relaxOut analyzeOut n (found ++ [g])
          | .infeasible => .ok (relaxReturn relaxOut analyzeOut)
          | .unknown => .ok (.inl found)

/-- `ShiftScheduler.solve` at control-flow level: with no active staff it
returns the empty list before touching any model; otherwise it runs the
enumeration loop. -/
def solveEmbed (activeStaff : List Staff) (construct : List Grid → Except String Unit)
    (oracle : List Grid → SolveStatus)
    (relaxOut : Except String (List Grid ⊕ String)) (analyzeOut : Except String String)
    (maxSolutions : Nat) : Except String (List Grid ⊕ String) :=
  if activeStaff.isEmpty then .ok (.inl [])
  else solveLoop construct oracle relaxOut analyzeOut maxSolutions []

/-- The per-day-capacity portion of `_add_hard_constraints` as run during
model construction, on a raw `shifts_per_day` argument: evaluating the range
of each non-no-shift day.  A raw value of the wrong shape makes
`_get_shift_range_for_day` raise, and nothing in `solve`'s first attempt
catches it. -/
def coverageBuild (m : Month) (noShiftDates : List Nat) (raw : RawSPD) :
    Except String Unit :=
  (calendarData m).foldlM (fun _ day =>
    if noShiftDates.contains day.dayNum then pure ()
    else do
      let _ ← getShiftRangeForDayRaw day raw
      pure ()) ()

/-- Running per-weekday occurrence counter, written from the specification:
the number of days of the month up to and including `dayNum` that are not
skipped by the holiday exemption and fall on weekday `w`. -/
def occCountUpTo (m : Month) (ignoreHol : Bool) (w dayNum : Nat) : Nat :=
  (List.range' 1 dayNum).countP (fun e => !skippedDay m ignoreHol e && (weekdayOf m e == w))

/-- Last occurrence of weekday `w` in a month of `D` days whose first day
falls on weekday `w0`, written from the specification: the largest day
number with that weekday (0 when the weekday does not occur). -/
def lastOccurrenceD (D w0 w : Nat) : Nat :=
  (List.range' 1 D).foldl (fun acc e => if wdOfD w0 e == w then e else acc) 0

/-- Last occurrence of weekday `w` in month `m`. -/
def lastOccurrence (m : Month) (w : Nat) : Nat :=
  lastOccurrenceD m.numDays m.firstWeekday w

/-- Match condition of the rule-expansion walk at one day, expressed with
the specification-level counter: the day is not skipped, and either the
rule's week number equals the day's bumped per-weekday counter with the
weekday matching, or the rule asks for week 5 and the day is the recorded
last occurrence of its weekday. -/
def ruleMatchesAt (m : Month) (ignoreHol : Bool) (week wd dayNum : Nat) : Bool :=
  !skippedDay m ignoreHol dayNum &&
    (((week == occCountUpTo m ignoreHol (weekdayOf m dayNum) dayNum) &&
        (wd == weekdayOf m dayNum)) ||
      ((week == 5) && (wd == weekdayOf m dayNum) &&
        (lastWeekDateFor m (weekdayOf m dayNum) == some dayNum)))

/-- The property claimed of the minimum rest interval, written from the
specification: for every staff and EVERY day index `d` (not only those the
source loop covers), working `d` with `d+1` off forbids working any of
`d+2 .. d+min_interval` that exists, except pairs pinned at both ends. -/
def minIntervalClaimFull (m : Month) (ignoreHol : Bool) (staffList : List Staff)
    (p : SolveParams) (g : Grid) : Bool :=
  (List.range staffList.length).all (fun s =>
    let st := staffList.getD s dummyStaff
    (List.range m.numDays).all (fun d =>
      (List.range' 1 (p.minInterval - 1)).all (fun i =>
        let k := d + 1 + i
        if m.numDays ≤ k then true
        else if plannedFixedOn m ignoreHol p st.name (d + 1) &&
                plannedFixedOn m ignoreHol p st.name (k + 1) then true
        else !(gridGet g s d && !gridGet g s (d + 1) && gridGet g s k))))

/-- Rows of `n` Booleans, exhaustively. -/
def allRows : Nat → List (List Bool)
  | 0 => [[]]
  | n + 1 => (allRows n).flatMap (fun r => [false :: r, true :: r])

/-- Grids of `s` rows of `d` Booleans, exhaustively. -/
def allGrids : Nat → Nat → List Grid
  | 0, _ => [[]]
  | s + 1, d => (allGrids s d).flatMap (fun g => (allRows d).map (fun r => r :: g))

/-- Bundled decidable facts about the backward scan and the last
occurrence, checked for one `(D, w0, w)` triple: the scan finds exactly the
last occurrence, the last occurrence is a day of the month carrying weekday
`w` and bounding every other occurrence, and a weekday occurs at most five
times in a month of at most 31 days. -/
def lastOccChecks (D w0 w : Nat) : Bool :=
  (lastWeekDateForD D w0 w == some (lastOccurrenceD D w0 w)) &&
    decide (1 ≤ lastOccurrenceD D w0 w) && decide (lastOccurrenceD D w0 w ≤ D) &&
    (wdOfD w0 (lastOccurrenceD D w0 w) == w) &&
    ((List.range' 1 D).all (fun e => !(wdOfD w0 e == w) || decide (e ≤ lastOccurrenceD D w0 w))) &&
    decide ((List.range' 1 D).countP (fun e => wdOfD w0 e == w) ≤ 5)

/-- A minimal parameter record matching the keyword defaults of
`ShiftScheduler.solve`, used as the base of the concrete scenarios
below. -/
def pBase : SolveParams :=
  { noShiftDates := []
    shiftsPerDay := .uniform 1
    minInterval := 2
    maxConsecutiveDays := 5
    lastMonthDaysSince := []
    prevMonthConsecutiveDays := []
    manualFixedShifts := []
    ruleBasedFixedShifts := []
    vacations := []
    ruleBasedVacations := []
    fairnessGroup := []
    totalAdjustments := []
    fairnessAdjustments := []
    fairnessTolerance := 1
    fairnessAsHard := true }

/-! Helper lemmas shared by the claim theorems. -/

lemma mem_calendarData {m : Month} {dn : Nat} (h1 : 1 ≤ dn) (h2 : dn ≤ m.numDays) :
    dayAtNum m dn ∈ calendarData m := by
  refine List.mem_map.mpr ⟨dn, ?_, rfl⟩
  have : dn ∈ List.range' 1 m.numDays := by
    rw [List.mem_range']
    exact ⟨dn - 1, by omega, by omega⟩
  exact this

lemma firstAttemptFeasible_parts {m : Month} {ih : Bool} {staffList : List Staff}
    {p : SolveParams} {g : Grid} (h : firstAttemptFeasible m ih staffList p g = true) :
    coverageSat m staffList.length p g = true ∧
    slotsSat m ih staffList p g = true ∧
    carryOverSat m ih staffList p g = true ∧
    minIntervalSat m ih staffList p g = true ∧
    maxConsecSat m ih staffList p g = true ∧
    monthStartSat m ih staffList p g = true ∧
    (p.manualFixedShifts.isEmpty || globalTotalDiffLe1 g m staffList) = true ∧
    fairnessHardSat m staffList p g = true := by
  simp only [firstAttemptFeasible, Bool.and_eq_true] at h
  tauto

lemma slotsSat_at {m : Month} {ih : Bool} {staffList : List Staff} {p : SolveParams}
    {g : Grid} (h : slotsSat m ih staffList p g = true)
    {s d : Nat} (hs : s < staffList.length) (hd : d < m.numDays) {b : Bool}
    (hf : slotForced m ih p (staffList.getD s dummyStaff) d = some b) :
    gridGet g s d = b := by
  simp only [slotsSat, List.all_eq_true, List.mem_range] at h
  have := h s hs d hd
  rw [hf] at this
  simpa using this

/-- C1: for every solution of a first solve attempt and every day of the
month, a no-shift date carries exactly 0 assigned staff, and any other day's
assigned-staff total lies within the `[min, max]` range
`_get_shift_range_for_day` derives from the `shifts_per_day`
configuration. -/
theorem coverage_within_configured_range (m : Month) (ih : Bool) (staffList : List Staff)
    (p : SolveParams) (g : Grid)
    (hfeas : firstAttemptFeasible m ih staffList p g = true)
    (d : Nat) (hd : d < m.numDays) :
    (p.noShiftDates.contains (d + 1) = true →
      dayAssignedCount g staffList.length d = 0) ∧
    (p.noShiftDates.contains (d + 1) = false →
      (getShiftRangeForDay (dayAtNum m (d + 1)) p.shiftsPerDay).1 ≤
          dayAssignedCount g staffList.length d ∧
        dayAssignedCount g staffList.length d ≤
          (getShiftRangeForDay (dayAtNum m (d + 1)) p.shiftsPerDay).2) := by
  have hcov := (firstAttemptFeasible_parts hfeas).1
  simp only [coverageSat, List.all_eq_true] at hcov
  have hmem := @mem_calendarData m (d + 1) (by omega) (by omega)
  have := hcov _ hmem
  simp only [dayAtNum] at this ⊢
  constructor
  · intro hns
    simp at hns
    simp [hns] at this
    simpa using this
  · intro hns
    simp at hns
    simp [hns] at this
    simpa using this

/-- C1 witness: a concrete two-day month with one staff working both days
under an exact-1 coverage configuration. -/
theorem coverage_within_configured_range_witness :
    (getShiftRangeForDay (dayAtNum ⟨2, 0, []⟩ 1) (SPDConfig.uniform 1)).1 ≤
        dayAssignedCount [[true, true]] 1 0 ∧
      dayAssignedCount [[true, true]] 1 0 ≤
        (getShiftRangeForDay (dayAtNum ⟨2, 0, []⟩ 1) (SPDConfig.uniform 1)).2 :=
  (coverage_within_configured_range ⟨2, 0, []⟩ false [⟨"A", [], true⟩] pBase
    [[true, true]] (by decide) 0 (by decide)).2 (by decide)

/-- C6: the per-slot precedence chain.  For every solution of a first
attempt and every slot: a manual vacation pins the staff off regardless of
everything below it (in particular a date both rule-fixed and manually
vacationed is off); failing that, a manual fixed shift pins the staff on
regardless of rule vacations and static unavailability (in particular an
impossible weekday overridden by a manual fixed assignment is worked);
failing those, a rule-expanded vacation pins the staff off; failing all
three, a statically impossible weekday pins the staff off unless the
holiday exemption applies.  Each conjunct assumes only the failure of the
strictly higher-priority conditions, so exactly one outcome governs a
slot and lower-priority rules are never consulted once one matches. -/
theorem slot_precedence_chain (m : Month) (ih : Bool) (staffList : List Staff)
    (p : SolveParams) (g : Grid)
    (hfeas : firstAttemptFeasible m ih staffList p g = true)
    (s d : Nat) (hs : s < staffList.length) (hd : d < m.numDays) :
    (manualVacationOn p (staffList.getD s dummyStaff).name (d + 1) = true →
      gridGet g s d = false) ∧
    (manualVacationOn p (staffList.getD s dummyStaff).name (d + 1) = false →
      manualFixedOn p (staffList.getD s dummyStaff).name (d + 1) = true →
      gridGet g s d = true) ∧
    (manualVacationOn p (staffList.getD s dummyStaff).name (d + 1) = false →
      manualFixedOn p (staffList.getD s dummyStaff).name (d + 1) = false →
      ruleVacationOn m ih p.ruleBasedVacations (staffList.getD s dummyStaff).name (d + 1) = true →
      gridGet g s d = false) ∧
    (manualVacationOn p (staffList.getD s dummyStaff).name (d + 1) = false →
      manualFixedOn p (staffList.getD s dummyStaff).name (d + 1) = false →
      ruleVacationOn m ih p.ruleBasedVacations (staffList.getD s dummyStaff).name (d + 1) = false →
      (staffList.getD s dummyStaff).impossibleWeekdays.contains (weekdayOf m (d + 1)) = true →
      (ih && natHolidayOn m (d + 1)) = false →
      gridGet g s d = false) := by
  have hslots := (firstAttemptFeasible_parts hfeas).2.1
  set st := staffList.getD s dummyStaff with hst
  refine ⟨?_, ?_, ?_, ?_⟩
  · intro h1
    have hf : slotForced m ih p st d = some false := by simp [slotForced, h1]
    exact slotsSat_at hslots hs hd hf
  · intro h1 h2
    have hf : slotForced m ih p st d = some true := by simp [slotForced, h1, h2]
    exact slotsSat_at hslots hs hd hf
  · intro h1 h2 h3
    have hf : slotForced m ih p st d = some false := by simp [slotForced, h1, h2, h3]
    exact slotsSat_at hslots hs hd hf
  · intro h1 h2 h3 h4 h5
    simp at h4
    have hf : slotForced m ih p st d = some false := by
      simp [slotForced, h1, h2, h3, h4, h5]
    exact slotsSat_at hslots hs hd hf

/-- C6 witness: a one-day month where staff A is statically unavailable on
Mondays but manually fixed on day 1 (a Monday): the solved grid has A
working, the static unavailability being overridden. -/
theorem slot_precedence_chain_witness :
    gridGet [[true]] 0 0 = true :=
  (slot_precedence_chain ⟨1, 0, []⟩ false [⟨"A", [0], true⟩]
    { pBase with manualFixedShifts := [(1, ["A"])] }
    [[true]] (by decide) 0 0 (by decide) (by decide)).2.1 (by decide) (by decide)

/-- C7: for every staff of every solution of a first attempt, every window
of `max_consecutive_days + 1` consecutive days that fits in the month and
does not contain an adjacent pair of planned-fixed dates for that staff sums
to at most `max_consecutive_days`. -/
theorem max_consecutive_window (m : Month) (ih : Bool) (staffList : List Staff)
    (p : SolveParams) (g : Grid)
    (hfeas : firstAttemptFeasible m ih staffList p g = true)
    (s d : Nat) (hs : s < staffList.length) (hd : d + p.maxConsecutiveDays < m.numDays)
    (hnp : hasPinnedAdjPair m ih p (staffList.getD s dummyStaff).name d
      p.maxConsecutiveDays = false) :
    windowSum g s d (p.maxConsecutiveDays + 1) ≤ p.maxConsecutiveDays := by
  have hmc := (firstAttemptFeasible_parts hfeas).2.2.2.2.1
  simp only [maxConsecSat, List.all_eq_true, List.mem_range] at hmc
  have := hmc s hs d (by omega)
  rw [hnp] at this
  simpa using this

/-- C7 witness: a two-day month with `max_consecutive_days = 1` and the
single staff working only day 1. -/
theorem max_consecutive_window_witness :
    windowSum [[true, false]] 0 0 (1 + 1) ≤ 1 :=
  max_consecutive_window ⟨2, 0, []⟩ false [⟨"A", [], true⟩]
    { pBase with shiftsPerDay := .globalRange 0 1, maxConsecutiveDays := 1 }
    [[true, false]] (by decide) 0 0 (by decide) (by decide) (by decide)

/-- C10: with no active staff, `solve` returns the empty solution list at
once, for every remaining parameter: the result is by definition independent
of the model construction, the backend oracle, the relaxation outcome and
the requested solution count, so no model is built and no solver invoked,
and the outcome is neither a diagnostic string nor an exception. -/
theorem solve_no_active_staff_returns_empty_list
    (construct : List Grid → Except String Unit) (oracle : List Grid → SolveStatus)
    (relaxOut : Except String (List Grid ⊕ String)) (analyzeOut : Except String String)
    (maxSolutions : Nat) :
    solveEmbed [] construct oracle relaxOut analyzeOut maxSolutions =
      Except.ok (Sum.inl []) := rfl

/-- C2 (amended): in hard mode, for every staff and every day index `d`
WITHIN THE RANGE THE SOURCE LOOP COVERS — `d + min_interval + 1 < numDays`,
the loop being `for d in range(len(day_list) - min_interval - 1)` — working
day `d` with day `d+1` off forbids working day `d+1+i` for every
`i = 1 .. min_interval - 1`, unless both endpoint dates of the implication
are planned fixed.  The last `min_interval` values of `d` whose windows
still fit in the month carry no such implication. -/
theorem min_interval_window_amended (m : Month) (ih : Bool) (staffList : List Staff)
    (p : SolveParams) (g : Grid)
    (hfeas : firstAttemptFeasible m ih staffList p g = true)
    (s d i : Nat) (hs : s < staffList.length)
    (hd : d + p.minInterval + 1 < m.numDays)
    (hi1 : 1 ≤ i) (hi2 : i < p.minInterval)
    (hnp : (plannedFixedOn m ih p (staffList.getD s dummyStaff).name (d + 1) &&
      plannedFixedOn m ih p (staffList.getD s dummyStaff).name (d + 1 + i + 1)) = false)
    (hw : gridGet g s d = true) (hoff : gridGet g s (d + 1) = false) :
    gridGet g s (d + 1 + i) = false := by
  have hmi := (firstAttemptFeasible_parts hfeas).2.2.2.1
  simp only [minIntervalSat, List.all_eq_true, List.mem_range] at hmi
  have hiMem : i ∈ List.range' 1 (p.minInterval - 1) := by
    rw [List.mem_range']
    exact ⟨i - 1, by omega, by omega⟩
  have hstep := hmi s hs d (by omega) i hiMem
  have hk : ¬(m.numDays ≤ d + 1 + i) := by omega
  rw [if_neg hk, hnp] at hstep
  simp [hw, hoff] at hstep
  exact hstep

/-- C2 witness: a four-day month, staff working only day 1 under optional
coverage; the implication for `d = 0`, `i = 1` yields day 3 off. -/
theorem min_interval_window_amended_witness :
    gridGet [[true, false, false, false]] 0 (0 + 1 + 1) = false :=
  min_interval_window_amended ⟨4, 0, []⟩ false [⟨"A", [], true⟩]
    { pBase with shiftsPerDay := .globalRange 0 1 } [[true, false, false, false]]
    (by decide) 0 0 1 (by decide) (by decide) (by decide) (by decide) (by decide)
    (by decide) (by decide)

/-- C2 counterexample: in a four-day month with one staff, optional
coverage and `min_interval = 2`, the grid that rests day 1, works day 2,
rests day 3 and works day 4 satisfies every constraint the source posts —
the loop `for d in range(len(day_list) - min_interval - 1)` never reaches
`d = 1` — yet at day index 1 the staff works, rests exactly one day, and
resumes inside the forbidden window with no planned-fixed exemption, which
the claim asserts never happens in a returned solution. -/
theorem min_interval_claim_counterexample :
    firstAttemptFeasible ⟨4, 0, []⟩ false [⟨"A", [], true⟩]
        { pBase with shiftsPerDay := .globalRange 0 1 } [[false, true, false, true]] = true ∧
      minIntervalClaimFull ⟨4, 0, []⟩ false [⟨"A", [], true⟩]
        { pBase with shiftsPerDay := .globalRange 0 1 } [[false, true, false, true]] = false := by
  constructor
  · decide
  · decide

/-- C4 (amended): when fairness is hard, the constraint
`_add_fairness_objective` posts bounds the spread of the per-staff
special-day counts (the days matched by the fairness group), each adjusted
by the staff's fairness adjustment, by the tolerance — provided at least two
staff are active, the fairness group is nonempty and matches at least one
day.  The spread of adjusted TOTAL counts is only a minimization term, not a
constraint. -/
theorem fairness_hard_bounds_special_day_spread (m : Month) (ih : Bool)
    (staffList : List Staff) (p : SolveParams) (g : Grid)
    (hfeas : firstAttemptFeasible m ih staffList p g = true)
    (hn : 1 < staffList.length)
    (hgrp : p.fairnessGroup.isEmpty = false)
    (hsdi : (specialDayIndices m p.fairnessGroup).isEmpty = false)
    (hhard : p.fairnessAsHard = true) :
    spreadI (adjFairList g m staffList p) ≤ p.fairnessTolerance := by
  have hf := (firstAttemptFeasible_parts hfeas).2.2.2.2.2.2.2
  rw [fairnessHardSat, if_pos hn] at hf
  rw [hgrp, hsdi, hhard] at hf
  simpa using hf

/-- C4 witness: two staff over a two-day month (Monday, Tuesday), fairness
group selecting Mondays, each staff working one day: the adjusted Monday
counts spread by 1, within the tolerance. -/
theorem fairness_hard_bounds_special_day_spread_witness :
    spreadI (adjFairList [[true, false], [false, true]] ⟨2, 0, []⟩
        [⟨"A", [], true⟩, ⟨"B", [], true⟩]
        { pBase with fairnessGroup := [DayKey.wd 0] }) ≤
      ({ pBase with fairnessGroup := [DayKey.wd 0] } : SolveParams).fairnessTolerance :=
  fairness_hard_bounds_special_day_spread ⟨2, 0, []⟩ false
    [⟨"A", [], true⟩, ⟨"B", [], true⟩] { pBase with fairnessGroup := [DayKey.wd 0] }
    [[true, false], [false, true]] (by decide) (by decide) (by decide) (by decide)
    (by decide)

/-- C4 counterexample: two active staff, hard fairness, tolerance 1, empty
fairness group, a two-day month with exact-1 coverage and staff B manually
vacationed on both days.  The unique satisfying assignment (as the
enumeration over every 2-by-2 grid confirms) puts A on both days, giving
adjusted totals 2 and 0 — a spread of 2, above the tolerance — so the
solution the solver must return violates the claimed bound on the spread of
per-staff TOTAL counts: the code never posts a hard constraint on that
spread. -/
theorem fairness_total_spread_counterexample :
    firstAttemptFeasible ⟨2, 0, []⟩ false [⟨"A", [], true⟩, ⟨"B", [], true⟩]
        { pBase with vacations := [("B", [1, 2])] } [[true, true], [false, false]] = true ∧
      spreadI (adjTotalsList [[true, true], [false, false]] ⟨2, 0, []⟩
        [⟨"A", [], true⟩, ⟨"B", [], true⟩] { pBase with vacations := [("B", [1, 2])] }) = 2 ∧
      ({ pBase with vacations := [("B", [1, 2])] } : SolveParams).fairnessTolerance = 1 ∧
      ({ pBase with vacations := [("B", [1, 2])] } : SolveParams).fairnessAsHard = true ∧
      ((allGrids 2 2).all (fun g =>
        !(firstAttemptFeasible ⟨2, 0, []⟩ false [⟨"A", [], true⟩, ⟨"B", [], true⟩]
            { pBase with vacations := [("B", [1, 2])] } g) ||
          decide (spreadI (adjTotalsList g ⟨2, 0, []⟩ [⟨"A", [], true⟩, ⟨"B", [], true⟩]
            { pBase with vacations := [("B", [1, 2])] }) = 2))) = true := by
  refine ⟨by decide, by decide, by decide, by decide, by decide⟩

/-- C3 (amended): the `INFEASIBLE` branch of the enumeration loop invokes
the staged relaxation on ANY attempt — first or later — and returns the
relaxation outcome, discarding the solutions already collected; the loop
stops early and returns the collected solutions only when an attempt
reports a status other than optimal, feasible or infeasible (such as
`UNKNOWN`); and when no attempt is infeasible the relaxation outcome is
never consulted (the result is independent of it). -/
theorem relaxation_trigger_behaviour
    (construct : List Grid → Except String Unit) (oracle : List Grid → SolveStatus)
    (relaxOut : Except String (List Grid ⊕ String)) (analyzeOut : Except String String)
    (n : Nat) (found : List Grid) (hc : construct found = .ok ()) :
    (oracle found = .infeasible →
      solveLoop construct oracle relaxOut analyzeOut (n + 1) found =
        .ok (relaxReturn relaxOut analyzeOut)) ∧
    (oracle found = .unknown →
      solveLoop construct oracle relaxOut analyzeOut (n + 1) found = .ok (.inl found)) ∧
    (∀ relaxOut2 analyzeOut2, (∀ f, oracle f ≠ .infeasible) → ∀ fuel f0,
      solveLoop construct oracle relaxOut analyzeOut fuel f0 =
        solveLoop construct oracle relaxOut2 analyzeOut2 fuel f0) := by
  refine ⟨?_, ?_, ?_⟩
  · intro h
    simp [solveLoop, hc, h]
  · intro h
    simp [solveLoop, hc, h]
  · intro relaxOut2 analyzeOut2 hno fuel
    induction fuel with
    | zero => intro f0; rfl
    | succ k ih2 =>
        intro f0
        rw [solveLoop, solveLoop]
        cases hcon : construct f0 with
        | error e => rfl
        | ok u =>
            cases horacle : oracle f0 with
            | optimal g => exact ih2 (f0 ++ [g])
            | feasible g => exact ih2 (f0 ++ [g])
            | infeasible => exact absurd horacle (hno f0)
            | unknown => rfl

/-- C3 witness: with an oracle that immediately reports an unknown status,
one loop iteration returns the (empty) collected list. -/
theorem relaxation_trigger_behaviour_witness :
    solveLoop (fun _ => .ok ()) (fun _ => SolveStatus.unknown)
      (.ok (.inl [])) (.ok "diag") (0 + 1) [] = .ok (.inl []) :=
  (relaxation_trigger_behaviour (fun _ => .ok ()) (fun _ => SolveStatus.unknown)
    (.ok (.inl [])) (.ok "diag") 0 [] rfl).2.1 rfl

/-- C3 counterexample: an enumeration session whose first attempt finds the
solution `[[true]]` and whose second attempt is INFEASIBLE (no further
solution).  The claim says enumeration then stops early and returns the
collected `[[[true]]]`; instead, `solve` invokes the staged relaxation and
returns its outcome `[[[false]]]`, discarding the collected solution. -/
theorem relaxation_trigger_claim_counterexample :
    solveEmbed [⟨"A", [], true⟩] (fun _ => .ok ())
        (fun found => if found.isEmpty then SolveStatus.feasible [[true]]
          else SolveStatus.infeasible)
        (.ok (.inl [[[false]]])) (.ok "diag") 2 = .ok (.inl [[[false]]]) ∧
      ([[[false]]] : List Grid) ≠ [[[true]]] := by
  exact ⟨rfl, by decide⟩

lemma solveLoop_ok_of_construct_ok (construct : List Grid → Except String Unit)
    (oracle : List Grid → SolveStatus) (relaxOut : Except String (List Grid ⊕ String))
    (analyzeOut : Except String String) (hc : ∀ found, construct found = .ok ()) :
    ∀ fuel found, ∃ r, solveLoop construct oracle relaxOut analyzeOut fuel found = .ok r := by
  intro fuel
  induction fuel with
  | zero => exact fun found => ⟨.inl found, rfl⟩
  | succ k ih2 =>
      intro found
      rw [solveLoop, hc found]
      cases oracle found with
      | optimal g => exact ih2 (found ++ [g])
      | feasible g => exact ih2 (found ++ [g])
      | infeasible => exact ⟨relaxReturn relaxOut analyzeOut, rfl⟩
      | unknown => exact ⟨.inl found, rfl⟩

/-- C5 (amended): failures raised inside the relaxation / diagnosis path
are caught and converted to a result (`solve` wraps `_progressive_relaxation`
and `_analyze_infeasibility` in try blocks), so whenever per-attempt model
construction succeeds `solve` returns a value — a solution list or a
diagnostic string — no matter what the relaxation or analysis outcome is,
including their raising; but model construction of the first attempt is NOT
guarded, so a construction failure propagates (see the counterexample). -/
theorem solve_returns_value_when_construction_succeeds
    (activeStaff : List Staff) (construct : List Grid → Except String Unit)
    (oracle : List Grid → SolveStatus)
    (relaxOut : Except String (List Grid ⊕ String)) (analyzeOut : Except String String)
    (maxSolutions : Nat) (hc : ∀ found, construct found = .ok ()) :
    ∃ r, solveEmbed activeStaff construct oracle relaxOut analyzeOut maxSolutions =
      .ok r := by
  rw [solveEmbed]
  by_cases he : activeStaff.isEmpty
  · rw [if_pos he]
    exact ⟨.inl [], rfl⟩
  · rw [if_neg he]
    exact solveLoop_ok_of_construct_ok construct oracle relaxOut analyzeOut hc maxSolutions []

/-- C5 witness: even with both the relaxation and the analysis raising, a
run whose construction succeeds returns a value. -/
theorem solve_returns_value_when_construction_succeeds_witness :
    ∃ r, solveEmbed [⟨"A", [], true⟩] (fun _ => .ok ()) (fun _ => SolveStatus.infeasible)
      (.error "relaxation raised") (.error "analysis raised") 1 = .ok r :=
  solve_returns_value_when_construction_succeeds [⟨"A", [], true⟩] (fun _ => .ok ())
    (fun _ => SolveStatus.infeasible) (.error "relaxation raised") (.error "analysis raised")
    1 (fun _ => rfl)

/-- C5 counterexample: a malformed `shifts_per_day` (a plain string) makes
`_get_shift_range_for_day` raise `AttributeError` during first-attempt model
construction, and `solve` wraps no try block around that code: the exception
propagates to the caller instead of being converted into a diagnostic
string. -/
theorem construction_exception_propagates_counterexample :
    solveEmbed [⟨"A", [], true⟩]
        (fun _ => coverageBuild ⟨2, 0, []⟩ [] (RawSPD.pyStr "1"))
        (fun _ => SolveStatus.unknown) (.ok (.inl [])) (.ok "diag") 1 =
      .error "AttributeError: object has no attribute get" := by
  rfl

lemma ne_of_nogoodDiffers {S D : Nat} {prev g : Grid}
    (h : nogoodDiffers S D prev g = true) : prev ≠ g := by
  intro he
  subst he
  simp [nogoodDiffers] at h

lemma solveLoop_length_pairwise (construct : List Grid → Except String Unit)
    (oracle : List Grid → SolveStatus) (relaxOut : Except String (List Grid ⊕ String))
    (analyzeOut : Except String String) (S D : Nat)
    (hcut : ∀ found g, (oracle found = .optimal g ∨ oracle found = .feasible g) →
      ∀ prev ∈ found, nogoodDiffers S D prev g = true)
    (hrelax : ∀ l, relaxOut = .ok (.inl l) → l.length ≤ 1) :
    ∀ fuel found l, found.Pairwise (· ≠ ·) →
      solveLoop construct oracle relaxOut analyzeOut fuel found = .ok (.inl l) →
      l.length ≤ found.length + fuel ∧ l.Pairwise (· ≠ ·) := by
  intro fuel
  induction fuel with
  | zero =>
      intro found l hpw hres
      rw [solveLoop] at hres
      obtain rfl : found = l := by simpa using hres
      exact ⟨by omega, hpw⟩
  | succ k ih2 =>
      intro found l hpw hres
      rw [solveLoop] at hres
      cases hcon : construct found with
      | error e => rw [hcon] at hres; cases hres
      | ok u =>
          rw [hcon] at hres
          cases horacle : oracle found with
          | optimal g =>
              rw [horacle] at hres
              have hpw2 : (found ++ [g]).Pairwise (· ≠ ·) := by
                rw [List.pairwise_append]
                refine ⟨hpw, List.pairwise_singleton _ _, ?_⟩
                intro a ha b hb
                have hb2 : b = g := by simpa using hb
                subst hb2
                exact ne_of_nogoodDiffers (hcut found b (Or.inl horacle) a ha)
              have := ih2 (found ++ [g]) l hpw2 hres
              have hlen := this.1
              rw [List.length_append, List.length_singleton] at hlen
              exact ⟨by omega, this.2⟩
          | feasible g =>
              rw [horacle] at hres
              have hpw2 : (found ++ [g]).Pairwise (· ≠ ·) := by
                rw [List.pairwise_append]
                refine ⟨hpw, List.pairwise_singleton _ _, ?_⟩
                intro a ha b hb
                have hb2 : b = g := by simpa using hb
                subst hb2
                exact ne_of_nogoodDiffers (hcut found b (Or.inr horacle) a ha)
              have := ih2 (found ++ [g]) l hpw2 hres
              have hlen := this.1
              rw [List.length_append, List.length_singleton] at hlen
              exact ⟨by omega, this.2⟩
          | infeasible =>
              rw [horacle] at hres
              have hr : relaxReturn relaxOut analyzeOut = .inl l := by
                have := hres
                simp only [Except.ok.injEq] at this
                exact this
              have hlen : l.length ≤ 1 := by
                cases hro : relaxOut with
                | ok r =>
                    simp only [relaxReturn, hro] at hr
                    subst hr
                    exact hrelax l (by rw [hro])
                | error e =>
                    simp only [relaxReturn, hro] at hr
                    cases hao : analyzeOut with
                    | ok s => rw [hao] at hr; cases hr
                    | error e2 => rw [hao] at hr; cases hr
              refine ⟨by omega, ?_⟩
              match l, hlen with
              | [], _ => exact List.Pairwise.nil
              | [x], _ => exact List.pairwise_singleton _ _
          | unknown =>
              rw [horacle] at hres
              obtain rfl : found = l := by simpa using hres
              exact ⟨by omega, hpw⟩

/-- C8: with the solver honouring the no-good cuts
(`_add_solution_prohibition_constraint` posted for every previously accepted
solution before each solve), and the staged relaxation contributing at most
one solution, every solution list `solve` returns contains at most
`max_solutions` entries, pairwise distinct as raw assignment grids. -/
theorem enumeration_bounded_and_distinct (activeStaff : List Staff)
    (construct : List Grid → Except String Unit) (oracle : List Grid → SolveStatus)
    (relaxOut : Except String (List Grid ⊕ String)) (analyzeOut : Except String String)
    (S D maxSolutions : Nat) (l : List Grid)
    (hcut : ∀ found g, (oracle found = .optimal g ∨ oracle found = .feasible g) →
      ∀ prev ∈ found, nogoodDiffers S D prev g = true)
    (hrelax : ∀ l2, relaxOut = .ok (.inl l2) → l2.length ≤ 1)
    (hres : solveEmbed activeStaff construct oracle relaxOut analyzeOut maxSolutions =
      .ok (.inl l)) :
    l.length ≤ maxSolutions ∧ l.Pairwise (· ≠ ·) := by
  rw [solveEmbed] at hres
  by_cases he : activeStaff.isEmpty
  · rw [if_pos he] at hres
    obtain rfl : ([] : List Grid) = l := by simpa using hres
    exact ⟨by simp, List.Pairwise.nil⟩
  · rw [if_neg he] at hres
    have := solveLoop_length_pairwise construct oracle relaxOut analyzeOut S D hcut hrelax
      maxSolutions [] l List.Pairwise.nil hres
    exact ⟨by simpa using this.1, this.2⟩

/-- C8 witness: a session whose first attempt finds `[[true]]` and whose
second attempt reports an unknown status returns one solution for a request
of three. -/
theorem enumeration_bounded_and_distinct_witness :
    ([[[true]]] : List Grid).length ≤ 3 ∧ ([[[true]]] : List Grid).Pairwise (· ≠ ·) :=
  enumeration_bounded_and_distinct [⟨"A", [], true⟩] (fun _ => .ok ())
    (fun found => if found.isEmpty then SolveStatus.feasible [[true]] else SolveStatus.unknown)
    (.ok (.inr "none")) (.ok "diag") 1 1 3 [[[true]]]
    (fun found g h prev hprev => by
      cases found with
      | nil => cases hprev
      | cons a t => rcases h with h | h <;> simp at h)
    (fun l2 hl2 => by simp at hl2)
    rfl

set_option maxHeartbeats 1000000 in
lemma lastOccChecks_true : ∀ (D : Fin 32) (w0 w : Fin 7), 28 ≤ D.val →
    lastOccChecks D.val w0.val w.val = true := by decide

lemma lastOcc_props {D w0 w : Nat} (hD1 : 28 ≤ D) (hD2 : D ≤ 31) (hw0 : w0 < 7) (hw : w < 7) :
    lastWeekDateForD D w0 w = some (lastOccurrenceD D w0 w) ∧
    1 ≤ lastOccurrenceD D w0 w ∧ lastOccurrenceD D w0 w ≤ D ∧
    wdOfD w0 (lastOccurrenceD D w0 w) = w ∧
    (∀ e, e ∈ List.range' 1 D → wdOfD w0 e = w → e ≤ lastOccurrenceD D w0 w) ∧
    (List.range' 1 D).countP (fun e => wdOfD w0 e == w) ≤ 5 := by
  have h := lastOccChecks_true ⟨D, by omega⟩ ⟨w0, hw0⟩ ⟨w, hw⟩ hD1
  simp only [lastOccChecks, Bool.and_eq_true, beq_iff_eq, decide_eq_true_eq,
    List.all_eq_true, Bool.or_eq_true, Bool.not_eq_true] at h
  obtain ⟨⟨⟨⟨⟨h1, h2⟩, h3⟩, h4⟩, h5⟩, h6⟩ := h
  refine ⟨h1, h2, h3, h4, ?_, h6⟩
  intro e he hwe
  rcases h5 e he with h | h
  · rw [hwe] at h; simp at h
  · exact h

lemma occCountUpTo_succ (m : Month) (ih : Bool) (w s : Nat) :
    occCountUpTo m ih w (s + 1) =
      occCountUpTo m ih w s +
        (if (!skippedDay m ih (s + 1) && (weekdayOf m (s + 1) == w)) then 1 else 0) := by
  rw [occCountUpTo, occCountUpTo]
  rw [List.range'_concat 1 s]
  rw [List.countP_append]
  have h1s : 1 + 1 * s = s + 1 := by omega
  rw [h1s]
  simp [List.countP, List.countP.go]

lemma occCountUpTo_pred (m : Month) (ih : Bool) (w s : Nat) (hs : 1 ≤ s) :
    occCountUpTo m ih w s = occCountUpTo m ih w (s - 1) +
      (if (!skippedDay m ih s && (weekdayOf m s == w)) then 1 else 0) := by
  have h1 : s = s - 1 + 1 := by omega
  conv_lhs => rw [h1]
  rw [occCountUpTo_succ]
  rw [show s - 1 + 1 = s by omega]

lemma mem_range'_iff {a s n : Nat} : a ∈ List.range' s n ↔ s ≤ a ∧ a < s + n := by
  rw [List.mem_range']
  constructor
  · rintro ⟨i, hi, rfl⟩; omega
  · rintro ⟨h1, h2⟩; exact ⟨a - s, by omega, by omega⟩

lemma range'_split (D dn : Nat) (h : dn ≤ D) :
    List.range' 1 D = List.range' 1 dn ++ List.range' (dn + 1) (D - dn) := by
  have := List.range'_append 1 dn (D - dn) 1
  simp only [Nat.one_mul] at this
  rw [show dn + 1 = 1 + dn by omega]
  rw [this]
  congr 1
  omega

lemma genMarksAux_single_eq (m : Month) (ih : Bool) (week wdIdx : Nat) (nm : String) :
    ∀ (k s : Nat) (counters : List Nat), counters.length = 7 → 1 ≤ s →
      (∀ w, w < 7 → counters.getD w 0 = occCountUpTo m ih w (s - 1)) →
      genMarksAux m ih [(week, wdIdx, nm)] ((List.range' s k).map (dayAtNum m)) counters =
        ((List.range' s k).filter (ruleMatchesAt m ih week wdIdx)).map (fun dn => (dn, nm)) := by
  intro k
  induction k with
  | zero => intro s counters _ _ _; rfl
  | succ k2 ihk =>
      intro s counters hlen hs hinv
      rw [List.range'_succ s k2 1, List.map_cons, List.filter_cons]
      have hwd0 : weekdayOf m s < 7 := Nat.mod_lt _ (by omega)
      by_cases hskip : skippedDay m ih s = true
      · have hmatch : ruleMatchesAt m ih week wdIdx s = false := by
          simp [ruleMatchesAt, hskip]
        rw [hmatch]
        simp only [Bool.false_eq_true, if_false]
        rw [genMarksAux]
        simp only [dayAtNum]
        rw [if_pos hskip]
        refine ihk (s + 1) counters hlen (by omega) ?_
        intro w hw
        rw [Nat.add_sub_cancel]
        rw [occCountUpTo_pred m ih w s hs, hinv w hw]
        simp [hskip]
      · have hskip2 : skippedDay m ih s = false := by
          revert hskip; cases skippedDay m ih s <;> simp
        have hltc : weekdayOf m s < counters.length := by rw [hlen]; exact hwd0
        have hbump : (counterBump counters (weekdayOf m s)).getD (weekdayOf m s) 0 =
            occCountUpTo m ih (weekdayOf m s) s := by
          simp only [counterBump, List.getD_eq_getElem?_getD]
          rw [List.getElem?_set_self hltc]
          simp only [Option.getD_some]
          rw [← List.getD_eq_getElem?_getD]
          rw [hinv _ hwd0]
          rw [occCountUpTo_pred m ih (weekdayOf m s) s hs]
          simp [hskip2]
        have hinv2 : ∀ w, w < 7 →
            (counterBump counters (weekdayOf m s)).getD w 0 = occCountUpTo m ih w s := by
          intro w hw
          by_cases hww : w = weekdayOf m s
          · subst hww; exact hbump
          · rw [counterBump, List.getD_eq_getElem?_getD]
            rw [List.getElem?_set_ne (fun he => hww he.symm)]
            rw [← List.getD_eq_getElem?_getD]
            rw [hinv w hw]
            rw [occCountUpTo_pred m ih w s hs]
            have : (weekdayOf m s == w) = false := by
              simp only [beq_eq_false_iff_ne, ne_eq]
              exact fun he => hww he.symm
            simp [this]
        rw [genMarksAux]
        simp only [dayAtNum]
        rw [if_neg (by rw [hskip2]; simp)]
        have hiff : ruleMatchesAt m ih week wdIdx s = true ↔
            ((week = (counterBump counters (weekdayOf m s)).getD (weekdayOf m s) 0 ∧
               wdIdx = weekdayOf m s) ∨
             (week = 5 ∧ wdIdx = weekdayOf m s ∧
               lastWeekDateFor m (weekdayOf m s) = some s)) := by
          rw [hbump]
          simp [ruleMatchesAt, hskip2]
          tauto
        by_cases hcond : ((week = (counterBump counters (weekdayOf m s)).getD (weekdayOf m s) 0 ∧
               wdIdx = weekdayOf m s) ∨
             (week = 5 ∧ wdIdx = weekdayOf m s ∧
               lastWeekDateFor m (weekdayOf m s) = some s))
        · rw [if_pos (hiff.mpr hcond)]
          simp only [List.filterMap, if_pos hcond]
          rw [List.map_cons]
          have hrest := ihk (s + 1) (counterBump counters (weekdayOf m s))
            (by rw [counterBump, List.length_set]; exact hlen) (by omega)
            (by intro w hw; rw [Nat.add_sub_cancel]; exact hinv2 w hw)
          simp only [hrest]
          rfl
        · rw [if_neg (fun h => hcond (hiff.mp h))]
          simp only [List.filterMap, if_neg hcond]
          have hrest := ihk (s + 1) (counterBump counters (weekdayOf m s))
            (by rw [counterBump, List.length_set]; exact hlen) (by omega)
            (by intro w hw; rw [Nat.add_sub_cancel]; exact hinv2 w hw)
          simp only [hrest]
          rfl

lemma ruleMatchesAt_week5 (m : Month) (ih : Bool) (wdIdx : Nat)
    (hD1 : 28 ≤ m.numDays) (hD2 : m.numDays ≤ 31)
    (hw0 : m.firstWeekday < 7) (hw : wdIdx < 7)
    (dn : Nat) (hdn : dn ∈ List.range' 1 m.numDays) :
    ruleMatchesAt m ih 5 wdIdx dn =
      (decide (dn = lastOccurrence m wdIdx) && !skippedDay m ih (lastOccurrence m wdIdx)) := by
  rcases @lastOcc_props m.numDays m.firstWeekday wdIdx hD1 hD2 hw0 hw
    with ⟨hP1, hP2, hP3, hP4, hP5, hP6⟩
  have hP1m : lastWeekDateFor m wdIdx = some (lastOccurrence m wdIdx) := hP1
  have hP2m : 1 ≤ lastOccurrence m wdIdx := hP2
  have hP3m : lastOccurrence m wdIdx ≤ m.numDays := hP3
  have hP4m : weekdayOf m (lastOccurrence m wdIdx) = wdIdx := hP4
  have hP5m : ∀ e, e ∈ List.range' 1 m.numDays → weekdayOf m e = wdIdx →
      e ≤ lastOccurrence m wdIdx := hP5
  have hP6m : (List.range' 1 m.numDays).countP (fun e => weekdayOf m e == wdIdx) ≤ 5 := hP6
  by_cases hdL : dn = lastOccurrence m wdIdx
  · have hwd : weekdayOf m dn = wdIdx := by rw [hdL]; exact hP4m
    have hlwd : lastWeekDateFor m wdIdx = some dn := by rw [hP1m, ← hdL]
    rw [← hdL]
    simp [ruleMatchesAt, hwd, hlwd]
  · have hfalse : ruleMatchesAt m ih 5 wdIdx dn = false := by
      rw [Bool.eq_false_iff]
      intro htrue
      simp only [ruleMatchesAt, Bool.and_eq_true, Bool.or_eq_true, beq_iff_eq,
        Bool.not_eq_true] at htrue
      obtain ⟨hns, hor⟩ := htrue
      have hdn2 : 1 ≤ dn ∧ dn < 1 + m.numDays := by
        rw [List.mem_range'] at hdn
        obtain ⟨i, hi, rfl⟩ := hdn
        omega
      rcases hor with ⟨hocc, hwd⟩ | ⟨⟨_, hwd⟩, hlast⟩
      · rw [← hwd] at hocc
        have hdnL : dn ≤ lastOccurrence m wdIdx := hP5m dn hdn hwd.symm
        have hdnL2 : dn < lastOccurrence m wdIdx := by
          rcases Nat.lt_or_ge dn (lastOccurrence m wdIdx) with h | h
          · exact h
          · exact absurd (by omega : dn = lastOccurrence m wdIdx) hdL
        have hsplit := range'_split m.numDays dn (by omega)
        have hmem : lastOccurrence m wdIdx ∈ List.range' (dn + 1) (m.numDays - dn) := by
          rw [List.mem_range']
          exact ⟨lastOccurrence m wdIdx - (dn + 1), by omega, by omega⟩
        have hposs : 0 < (List.range' (dn + 1) (m.numDays - dn)).countP
            (fun e => weekdayOf m e == wdIdx) :=
          List.countP_pos_iff.mpr ⟨lastOccurrence m wdIdx, hmem, by simp [hP4m]⟩
        have hmono : occCountUpTo m ih wdIdx dn ≤
            (List.range' 1 dn).countP (fun e => weekdayOf m e == wdIdx) := by
          rw [occCountUpTo]
          apply List.countP_mono_left
          intro a _ ha
          simp only [Bool.and_eq_true] at ha
          exact ha.2
        rw [hsplit, List.countP_append] at hP6m
        omega
      · rw [← hwd] at hlast
        rw [hP1m] at hlast
        exact hdL (Option.some.inj hlast).symm
    rw [hfalse]
    have hdec : decide (dn = lastOccurrence m wdIdx) = false := by simp [hdL]
    rw [hdec, Bool.false_and]

lemma filter_week5_eq (m : Month) (ih : Bool) (wdIdx : Nat)
    (hD1 : 28 ≤ m.numDays) (hD2 : m.numDays ≤ 31)
    (hw0 : m.firstWeekday < 7) (hw : wdIdx < 7) :
    (List.range' 1 m.numDays).filter (ruleMatchesAt m ih 5 wdIdx) =
      if skippedDay m ih (lastOccurrence m wdIdx) = true then []
      else [lastOccurrence m wdIdx] := by
  have hcong : (List.range' 1 m.numDays).filter (ruleMatchesAt m ih 5 wdIdx) =
      (List.range' 1 m.numDays).filter
        (fun dn => decide (dn = lastOccurrence m wdIdx) &&
          !skippedDay m ih (lastOccurrence m wdIdx)) :=
    List.filter_congr (fun dn hdn => ruleMatchesAt_week5 m ih wdIdx hD1 hD2 hw0 hw dn hdn)
  rw [hcong]
  by_cases hsk : skippedDay m ih (lastOccurrence m wdIdx) = true
  · rw [if_pos hsk]
    simp [hsk]
  · rw [if_neg hsk]
    have hsk2 : skippedDay m ih (lastOccurrence m wdIdx) = false := by
      revert hsk; cases skippedDay m ih (lastOccurrence m wdIdx) <;> simp
    rw [hsk2]
    simp only [Bool.not_false, Bool.and_true]
    rcases @lastOcc_props m.numDays m.firstWeekday wdIdx hD1 hD2 hw0 hw
      with ⟨_, hP2, hP3, _, _, _⟩
    have hP2m : 1 ≤ lastOccurrence m wdIdx := hP2
    have hP3m : lastOccurrence m wdIdx ≤ m.numDays := hP3
    have hmemL : lastOccurrence m wdIdx ∈ List.range' 1 m.numDays := by
      rw [mem_range'_iff]; omega
    have hswap : (List.range' 1 m.numDays).filter
        (fun dn => decide (dn = lastOccurrence m wdIdx)) =
        (List.range' 1 m.numDays).filter (· == lastOccurrence m wdIdx) :=
      List.filter_congr (fun dn _ => by
        by_cases h : dn = lastOccurrence m wdIdx <;> simp [h])
    rw [hswap, List.filter_beq]
    rw [List.count_eq_one_of_mem (List.nodup_range' 1 m.numDays) hmemL]
    rfl

lemma generateVacationsFromRules_single (m : Month) (ih : Bool) (week wdIdx : Nat)
    (nm : String) :
    generateVacationsFromRules m ih [⟨week, wdIdx, nm⟩] =
      ((List.range' 1 m.numDays).filter (ruleMatchesAt m ih week wdIdx)).map
        (fun dn => (dn, nm)) := by
  rw [generateVacationsFromRules, calendarData]
  exact genMarksAux_single_eq m ih week wdIdx nm m.numDays 1 (List.replicate 7 0) (by simp)
    (le_refl 1) (by
      intro w hw
      show (List.replicate 7 0).getD w 0 = occCountUpTo m ih w 0
      rw [List.getD_eq_getElem?_getD, List.getElem?_replicate]
      simp [hw]
      rfl)

/-- C9: for a recurring rule (fixed-shift and vacation expansion walk the
calendar identically, first conjunct) with weekOfMonth 5 and weekday `w`,
expansion marks exactly the last occurrence of weekday `w` in the month —
resolved by the backward scan from month-end — EXCEPT that when the holiday
exemption is enabled and that date is a national holiday the walk skips it
and the rule marks nothing (amended; see the counterexample); for any other
weekOfMonth `n` (in particular 1..4) it marks exactly the dates whose
running per-weekday occurrence counter, which skips holiday days when the
exemption is enabled, equals `n`. -/
theorem rule_week_of_month_semantics (m : Month) (ih : Bool) (week wdIdx : Nat) (nm : String)
    (hD1 : 28 ≤ m.numDays) (hD2 : m.numDays ≤ 31)
    (hw0 : m.firstWeekday < 7) (hw : wdIdx < 7) :
    (generateFixedShiftsFromRules m ih [⟨week, wdIdx, nm⟩] =
      generateVacationsFromRules m ih [⟨week, wdIdx, nm⟩]) ∧
    (week ≠ 5 → ∀ dn nm2, ((dn, nm2) ∈ generateVacationsFromRules m ih [⟨week, wdIdx, nm⟩] ↔
      (nm2 = nm ∧ 1 ≤ dn ∧ dn ≤ m.numDays ∧ skippedDay m ih dn = false ∧
        weekdayOf m dn = wdIdx ∧ occCountUpTo m ih wdIdx dn = week))) ∧
    (week = 5 → generateVacationsFromRules m ih [⟨week, wdIdx, nm⟩] =
      if skippedDay m ih (lastOccurrence m wdIdx) = true then []
      else [(lastOccurrence m wdIdx, nm)]) := by
  refine ⟨rfl, ?_, ?_⟩
  · intro hweek dn nm2
    rw [generateVacationsFromRules_single]
    simp only [List.mem_map, List.mem_filter, Prod.mk.injEq]
    constructor
    · rintro ⟨a, ⟨hmem, hmatch⟩, ha, hnm⟩
      rw [← ha]
      rw [mem_range'_iff] at hmem
      simp only [ruleMatchesAt, Bool.and_eq_true, Bool.or_eq_true, beq_iff_eq,
        Bool.not_eq_true] at hmatch
      obtain ⟨hns, hor⟩ := hmatch
      rcases hor with ⟨hocc, hwd⟩ | ⟨⟨h5, _⟩, _⟩
      · rw [← hwd] at hocc
        exact ⟨hnm.symm, by omega, by omega, by
          revert hns; cases skippedDay m ih a <;> simp, hwd.symm, hocc.symm⟩
      · exact absurd h5 hweek
    · rintro ⟨hnm, h1, h2, hns, hwd, hocc⟩
      refine ⟨dn, ⟨?_, ?_⟩, rfl, hnm.symm⟩
      · rw [mem_range'_iff]; omega
      · simp only [ruleMatchesAt, Bool.and_eq_true, Bool.or_eq_true, beq_iff_eq,
          Bool.not_eq_true]
        exact ⟨by rw [hns]; rfl, Or.inl ⟨by rw [hwd, hocc], hwd.symm⟩⟩
  · intro hweek
    subst hweek
    rw [generateVacationsFromRules_single, filter_week5_eq m ih wdIdx hD1 hD2 hw0 hw]
    by_cases hsk : skippedDay m ih (lastOccurrence m wdIdx) = true
    · rw [if_pos hsk, if_pos hsk]
      rfl
    · rw [if_neg hsk, if_neg hsk]
      rfl

/-- C9 witness: January 2024 (31 days, day 1 a Monday, no holiday data):
the week-5 Wednesday rule marks the last Wednesday. -/
theorem rule_week_of_month_semantics_witness :
    generateVacationsFromRules ⟨31, 0, []⟩ false [⟨5, 2, "A"⟩] =
      if skippedDay ⟨31, 0, []⟩ false (lastOccurrence ⟨31, 0, []⟩ 2) = true then []
      else [(lastOccurrence ⟨31, 0, []⟩ 2, "A")] :=
  (rule_week_of_month_semantics ⟨31, 0, []⟩ false 5 2 "A" (by decide) (by decide)
    (by decide) (by decide)).2.2 rfl

/-- C9 counterexample: with the holiday exemption enabled and the last
Wednesday of the month (day 31) a national holiday, the week-5 Wednesday
rule marks NOTHING — not the last occurrence of the weekday, as the claim
states unconditionally. -/
theorem rule_week5_holiday_counterexample :
    generateVacationsFromRules ⟨31, 0, [31]⟩ true [⟨5, 2, "A"⟩] = [] ∧
      lastOccurrence ⟨31, 0, [31]⟩ 2 = 31 ∧
      natHolidayOn ⟨31, 0, [31]⟩ 31 = true := by
  refine ⟨by decide, by decide, by decide⟩


end ShiftApp
